import Mathlib

/-!
Verification of the county sales-potential scoring pipeline (`src/app.py`).

The pipeline's numeric columns are pandas float64 series.  Two levels of
embedding are used:

* `PFloat` models an IEEE-754 double restricted to the values the pipeline
  can produce: an exact rational, `nan` (covering both NaN and `pd.NA`,
  which behave identically here: both propagate through arithmetic and are
  treated as missing by `rank` and `MinMaxScaler`), and the two infinities.
  Zero is unsigned; no claim depends on the sign of zero.  This level is
  used for the per-row indicator derivations (`load_census_data` lines
  37-39 and `calculate_scores` lines 76-77), where division by zero matters.

* `Option ℚ` (`none` = missing) models columns once they hold percentile
  ranks or scores, which are always finite; it is used for
  `Series.rank(pct=True)`, the weighted sum, and `MinMaxScaler`.
-/

/-- IEEE-style pandas float: a rational, NaN/NA, or ±infinity. -/
inductive PFloat where
  | num : ℚ → PFloat
  | nan : PFloat
  | inf : PFloat
  | ninf : PFloat
deriving DecidableEq, Repr

/-- pandas/IEEE addition on `PFloat`. -/
def padd : PFloat → PFloat → PFloat
  | .nan, _ => .nan
  | _, .nan => .nan
  | .inf, .ninf => .nan
  | .ninf, .inf => .nan
  | .inf, _ => .inf
  | _, .inf => .inf
  | .ninf, _ => .ninf
  | _, .ninf => .ninf
  | .num a, .num b => .num (a + b)

/-- pandas/IEEE subtraction on `PFloat`. -/
def psub : PFloat → PFloat → PFloat
  | .nan, _ => .nan
  | _, .nan => .nan
  | .inf, .inf => .nan
  | .ninf, .ninf => .nan
  | .inf, _ => .inf
  | .ninf, _ => .ninf
  | .num _, .inf => .ninf
  | .num _, .ninf => .inf
  | .num a, .num b => .num (a - b)

/-- pandas/IEEE multiplication on `PFloat`. -/
def pmul : PFloat → PFloat → PFloat
  | .nan, _ => .nan
  | _, .nan => .nan
  | .inf, .num b => if 0 < b then .inf else if b < 0 then .ninf else .nan
  | .num a, .inf => if 0 < a then .inf else if a < 0 then .ninf else .nan
  | .ninf, .num b => if 0 < b then .ninf else if b < 0 then .inf else .nan
  | .num a, .ninf => if 0 < a then .ninf else if a < 0 then .inf else .nan
  | .inf, .inf => .inf
  | .inf, .ninf => .ninf
  | .ninf, .inf => .ninf
  | .ninf, .ninf => .inf
  | .num a, .num b => .num (a * b)

/-- pandas/IEEE division on `PFloat`: a finite nonzero value divided by
(unsigned, i.e. positive) zero gives the correspondingly signed infinity,
and `0 / 0` gives NaN. -/
def pdiv : PFloat → PFloat → PFloat
  | .nan, _ => .nan
  | _, .nan => .nan
  | .num a, .num b =>
      if b = 0 then (if 0 < a then .inf else if a < 0 then .ninf else .nan)
      else .num (a / b)
  | .inf, .num b => if b < 0 then .ninf else .inf
  | .ninf, .num b => if b < 0 then .inf else .ninf
  | .num _, .inf => .num 0
  | .num _, .ninf => .num 0
  | .inf, .inf => .nan
  | .inf, .ninf => .nan
  | .ninf, .inf => .nan
  | .ninf, .ninf => .nan

/-- `Series.replace(0, pd.NA)` applied elementwise (app.py line 39). -/
def replaceZeroNA (x : PFloat) : PFloat :=
  if x = .num 0 then .nan else x

/-- app.py line 38:
`df["homeownership_rate"] = df["owner_occupied_units"] / df["total_occupied_units"]`
(no zero-denominator guard). -/
def homeownership_rate (owner_occupied_units total_occupied_units : PFloat) : PFloat :=
  pdiv owner_occupied_units total_occupied_units

/-- app.py line 39:
`df["sf_ratio"] = (df["sf_detached"] + df["sf_attached"]) / df["total_housing_units"].replace(0, pd.NA)`. -/
def sf_ratio (sf_detached sf_attached total_housing_units : PFloat) : PFloat :=
  pdiv (padd sf_detached sf_attached) (replaceZeroNA total_housing_units)

/-- app.py line 76: `df["home_age"] = 2025 - df["median_year_built"]`. -/
def home_age (median_year_built : PFloat) : PFloat :=
  psub (.num 2025) median_year_built

/-- app.py line 77: `df["adj_population"] = df["total_population"] * df["sf_ratio"]`. -/
def adj_population (total_population sf_ratio_val : PFloat) : PFloat :=
  pmul total_population sf_ratio_val

/-!
## Percentile ranking

`Series.rank(pct=True)` with the defaults `method='average'`,
`na_option='keep'`, `ascending=True`: each non-missing value receives the
average of the ordinal positions of its tied group within the sorted
non-missing values, divided by the number of non-missing values; missing
entries stay missing (app.py lines 79-86).
-/

/-- Average fractional rank of `v` within the non-missing population
`present`: positions `countLt+1 … countLt+countEq` are tied, their average
is `countLt + (countEq+1)/2`, then divide by the population size. -/
def rankOf (present : List ℚ) (v : ℚ) : ℚ :=
  ((present.countP (fun w => w < v) : ℚ) +
    ((present.countP (fun w => w = v) : ℚ) + 1) / 2) / (present.length : ℚ)

/-- `Series.rank(pct=True)` on a column with missing entries. -/
def rank_pct (xs : List (Option ℚ)) : List (Option ℚ) :=
  xs.map (fun o => o.map (rankOf (xs.filterMap id)))

/-!
## Weighted composite score (app.py lines 88-96)
-/

/-- Elementwise multiplication of a series by a scalar: NaN propagates. -/
def omul (o : Option ℚ) (c : ℚ) : Option ℚ := o.map (· * c)

/-- Elementwise addition of two series entries: NaN propagates. -/
def oadd (a b : Option ℚ) : Option ℚ := a.bind fun x => b.map fun y => x + y

/-- The eight percentile-rank columns of one row (app.py lines 79-86).
`rank_population` is computed by the code but carries no weight in the
composite sum. -/
structure RankRow where
  rank_income : Option ℚ
  rank_home_age : Option ℚ
  rank_population : Option ℚ
  rank_adj_population : Option ℚ
  rank_homeownership : Option ℚ
  rank_avg_precipitation : Option ℚ
  rank_avg_temperature : Option ℚ
  rank_sf_ratio : Option ℚ

/-- app.py lines 88-96: `df["pest_sales_score_raw"] = rank_home_age*0.125 +
rank_avg_precipitation*0.125 + rank_avg_temperature*0.125 + rank_sf_ratio*0.25 +
rank_income*0.125 + rank_adj_population*0.50 + rank_homeownership*0.05`. -/
def pest_sales_score_raw (r : RankRow) : Option ℚ :=
  oadd (oadd (oadd (oadd (oadd (oadd
    (omul r.rank_home_age 0.125)
    (omul r.rank_avg_precipitation 0.125))
    (omul r.rank_avg_temperature 0.125))
    (omul r.rank_sf_ratio 0.25))
    (omul r.rank_income 0.125))
    (omul r.rank_adj_population 0.50))
    (omul r.rank_homeownership 0.05)

/-!
## Min-max rescaling (app.py lines 98-99)

`MinMaxScaler().fit_transform` on a single column with default feature
range (0, 1): `fit` takes the nan-ignoring min and max, sets
`scale = 1 / (max - min)` with a zero range replaced by 1
(`_handle_zeros_in_scale`), `min_ = 0 - data_min * scale`; `transform`
maps `x ↦ x * scale + min_`, propagating NaN.
-/

/-- `MinMaxScaler().fit_transform(df[["pest_sales_score_raw"]])`. -/
def minmax_fit_transform (xs : List (Option ℚ)) : List (Option ℚ) :=
  match xs.filterMap id with
  | [] => xs
  | p :: ps =>
    let lo := ps.foldl min p
    let hi := ps.foldl max p
    let scale := if hi - lo = 0 then 1 else 1 / (hi - lo)
    xs.map (fun o => o.map (fun x => x * scale + (0 - lo * scale)))

/-!
## Identifier normalization (`id_to_fips`, app.py lines 43-55)

Python strings are embedded as `List Char`; `str.split("-")` with a
one-character separator is `splitOnDash`, and `str.zfill(w)` is `zfill`.
Unpacking `split`'s result into exactly two names raises `ValueError`
when the part count differs from two; the dictionary lookup raises
`KeyError` — the spec's `UnknownRegionError` — for an unknown abbreviation.
-/

/-- Errors `id_to_fips` can raise. -/
inductive IdError where
  | unknownRegion : IdError
  | valueError : IdError
deriving DecidableEq, Repr

/-- Python `s.split("-")`: split at every dash; `n` dashes give `n+1` parts. -/
def splitOnDash : List Char → List (List Char)
  | [] => [[]]
  | c :: rest =>
    match splitOnDash rest with
    | [] => [[]]
    | h :: t => if c = '-' then [] :: h :: t else (c :: h) :: t

/-- Python `s.zfill(w)`: left-pad with zeros to width `w`, keeping a
leading sign in front of the padding. -/
def zfill (w : Nat) (s : List Char) : List Char :=
  if w ≤ s.length then s
  else
    match s with
    | '+' :: rest => '+' :: (List.replicate (w - s.length) '0' ++ rest)
    | '-' :: rest => '-' :: (List.replicate (w - s.length) '0' ++ rest)
    | _ => List.replicate (w - s.length) '0' ++ s

/-- app.py lines 44-53: the state-abbreviation → FIPS-prefix dictionary. -/
def state_abbr_to_fips : List (String × String) :=
  [("AL", "01"), ("AK", "02"), ("AZ", "04"), ("AR", "05"), ("CA", "06"),
   ("CO", "08"), ("CT", "09"), ("DE", "10"), ("FL", "12"), ("GA", "13"),
   ("HI", "15"), ("ID", "16"), ("IL", "17"), ("IN", "18"), ("IA", "19"),
   ("KS", "20"), ("KY", "21"), ("LA", "22"), ("ME", "23"), ("MD", "24"),
   ("MA", "25"), ("MI", "26"), ("MN", "27"), ("MS", "28"), ("MO", "29"),
   ("MT", "30"), ("NE", "31"), ("NV", "32"), ("NH", "33"), ("NJ", "34"),
   ("NM", "35"), ("NY", "36"), ("NC", "37"), ("ND", "38"), ("OH", "39"),
   ("OK", "40"), ("OR", "41"), ("PA", "42"), ("RI", "44"), ("SC", "45"),
   ("SD", "46"), ("TN", "47"), ("TX", "48"), ("UT", "49"), ("VT", "50"),
   ("VA", "51"), ("WA", "53"), ("WV", "54"), ("WI", "55"), ("WY", "56")]

/-- app.py lines 54-55:
`state_abbr, county_code = id_str.split("-")` then
`return state_abbr_to_fips[state_abbr] + county_code.zfill(3)`. -/
def id_to_fips (id_str : List Char) : Except IdError (List Char) :=
  match splitOnDash id_str with
  | [state_abbr, county_code] =>
    match state_abbr_to_fips.lookup (String.mk state_abbr) with
    | some fips => Except.ok (fips.data ++ zfill 3 county_code)
    | none => Except.error IdError.unknownRegion
  | _ => Except.error IdError.valueError

/-!
## Left-outer merge (app.py lines 126-127)

`df.merge(precip, on="fips", how="left")`: each primary row is paired with
every matching secondary row; a primary row with no match is kept once
with the secondary value column set to NaN (missing).
-/

/-- One row of a weather table after `load_weather_data`: the join key and
one value column. -/
structure WeatherRow where
  fips : String
  value : ℚ

/-- `left.merge(right, on="fips", how="left")` where `right` has columns
`fips` and one value column. -/
def leftMergeWeather {α : Type} (left : List α) (key : α → String)
    (right : List WeatherRow) : List (α × Option ℚ) :=
  left.flatMap fun row =>
    match right.filter (fun r => r.fips = key row) with
    | [] => [(row, none)]
    | m :: ms => (m :: ms).map fun r => (row, some r.value)

/-!
## Helper lemmas
-/

theorem omul_none (c : ℚ) : omul none c = none := rfl

theorem oadd_none_left (b : Option ℚ) : oadd none b = none := rfl

theorem oadd_none_right (a : Option ℚ) : oadd a none = none := by
  cases a <;> rfl

theorem splitOnDash_ne_nil (s : List Char) : splitOnDash s ≠ [] := by
  cases s with
  | nil => simp [splitOnDash]
  | cons c rest =>
    unfold splitOnDash
    cases splitOnDash rest with
    | nil => simp
    | cons h t =>
      dsimp only
      split <;> simp

theorem splitOnDash_length (s : List Char) :
    (splitOnDash s).length = s.count '-' + 1 := by
  induction s with
  | nil => rfl
  | cons c rest ih =>
    unfold splitOnDash
    rcases hne : splitOnDash rest with _ | ⟨h, t⟩
    · exact absurd hne (splitOnDash_ne_nil rest)
    · rw [hne] at ih
      by_cases hc : c = '-'
      · subst hc
        simp only [if_pos rfl, List.length_cons, List.count_cons, List.length_cons] at ih ⊢
        simp [ih]
      · simp only [if_neg hc, List.length_cons, List.count_cons] at ih ⊢
        simp [List.count_cons, hc, ih]

/-!
## Claim theorems
-/

/-- C1: for every row whose seven weighted percentile ranks are all
present, the raw composite score is the weighted sum of the row's
percentile ranks under the fixed weight vector home_age 0.125,
precipitation 0.125, temperature 0.125, single-family ratio 0.25,
income 0.125, adjusted population 0.50, homeownership 0.05 (the
population rank carries no weight in the vector). -/
theorem raw_score_weighted_sum (r : RankRow)
    (inc ha adj ho pr te sf : ℚ)
    (h1 : r.rank_income = some inc) (h2 : r.rank_home_age = some ha)
    (h3 : r.rank_adj_population = some adj) (h4 : r.rank_homeownership = some ho)
    (h5 : r.rank_avg_precipitation = some pr) (h6 : r.rank_avg_temperature = some te)
    (h7 : r.rank_sf_ratio = some sf) :
    pest_sales_score_raw r =
      some (ha * 0.125 + pr * 0.125 + te * 0.125 + sf * 0.25 +
        inc * 0.125 + adj * 0.50 + ho * 0.05) := by
  simp [pest_sales_score_raw, oadd, omul, h1, h2, h3, h4, h5, h6, h7]

theorem raw_score_weighted_sum_witness :
    pest_sales_score_raw
      ⟨some 1, some (1/2), some (3/4), some (1/4), some 1, some (1/2), some (3/4), some (1/4)⟩ =
      some ((1/2) * 0.125 + (1/2) * 0.125 + (3/4) * 0.125 + (1/4) * 0.25 +
        1 * 0.125 + (1/4) * 0.50 + 1 * 0.05) :=
  raw_score_weighted_sum _ 1 (1/2) (1/4) 1 (1/2) (3/4) (1/4) rfl rfl rfl rfl rfl rfl rfl

/-- C2 (code bug): the code divides `owner_occupied_units` by
`total_occupied_units` with no zero-denominator guard, so a record with
`total_occupied_units = 0` and `owner_occupied_units = 200` gets a
homeownership rate of +infinity, not a missing value as the spec
requires (contrast line 39, which guards the analogous `sf_ratio`
division with `.replace(0, pd.NA)`). -/
theorem homeownership_rate_div_zero :
    homeownership_rate (.num 200) (.num 0) = PFloat.inf ∧ PFloat.inf ≠ PFloat.nan := by
  decide

/-- C7: a record with `total_housing_units = 0` gets a missing
single-family ratio (the `.replace(0, pd.NA)` guard turns the
denominator into NA) and hence a missing adjusted population, with no
arithmetic error (the embedding is total). -/
theorem zero_total_units_missing (sf_det sf_att pop : PFloat) :
    sf_ratio sf_det sf_att (.num 0) = PFloat.nan ∧
    adj_population pop (sf_ratio sf_det sf_att (.num 0)) = PFloat.nan := by
  have h1 : sf_ratio sf_det sf_att (.num 0) = PFloat.nan := by
    unfold sf_ratio replaceZeroNA
    rw [if_pos rfl]
    cases padd sf_det sf_att <;> rfl
  refine ⟨h1, ?_⟩
  rw [h1]
  cases pop <;> rfl

/-- C8: if any of the seven weighted percentile ranks of a row is
missing, the raw composite score of that row is missing (NaN
propagates through the products and sums; a missing rank is never
treated as zero). -/
theorem missing_rank_propagates (r : RankRow)
    (h : r.rank_income = none ∨ r.rank_home_age = none ∨
      r.rank_adj_population = none ∨ r.rank_homeownership = none ∨
      r.rank_avg_precipitation = none ∨ r.rank_avg_temperature = none ∨
      r.rank_sf_ratio = none) :
    pest_sales_score_raw r = none := by
  rcases h with h | h | h | h | h | h | h <;>
    simp [pest_sales_score_raw, h, omul_none, oadd_none_left, oadd_none_right]

theorem missing_rank_propagates_witness :
    pest_sales_score_raw
      ⟨some 1, some 1, some 1, some 1, some 1, none, some 1, some 1⟩ = none :=
  missing_rank_propagates _ (Or.inr (Or.inr (Or.inr (Or.inr (Or.inl rfl)))))

/-- C9: a left-outer merge of the primary table with an empty secondary
table keeps every primary row exactly once, unchanged, with the added
secondary value column entirely missing. -/
theorem left_merge_empty_secondary {α : Type} (left : List α) (key : α → String) :
    leftMergeWeather left key [] = left.map (fun row => (row, none)) := by
  induction left with
  | nil => rfl
  | cons a l ih =>
    simp only [leftMergeWeather, List.flatMap_cons, List.filter_nil] at ih ⊢
    rw [ih]
    rfl

/-- C6: for a well-formed identifier (exactly one dash) whose region
abbreviation is not a key of the state dictionary, `id_to_fips` fails
with the unknown-region error (Python `KeyError`, the spec's
`UnknownRegionError`) and returns no key. -/
theorem id_to_fips_unknown_region (s st county : List Char)
    (h1 : splitOnDash s = [st, county])
    (h2 : state_abbr_to_fips.lookup (String.mk st) = none) :
    id_to_fips s = Except.error IdError.unknownRegion := by
  unfold id_to_fips
  rw [h1]
  dsimp only
  rw [h2]

theorem id_to_fips_unknown_region_witness :
    id_to_fips "XX-001".data = Except.error IdError.unknownRegion :=
  id_to_fips_unknown_region "XX-001".data ['X', 'X'] ['0', '0', '1'] (by decide) (by decide)

/-- C10: for every identifier string that does not contain exactly one
dash, `id_to_fips` fails (the two-name unpacking of `split`'s result
raises `ValueError`) rather than returning a key. -/
theorem id_to_fips_malformed (s : List Char) (h : s.count '-' ≠ 1) :
    ∃ e, id_to_fips s = Except.error e := by
  have hl : (splitOnDash s).length ≠ 2 := by
    rw [splitOnDash_length]
    omega
  unfold id_to_fips
  rcases hsp : splitOnDash s with _ | ⟨a, _ | ⟨b, _ | ⟨c, t⟩⟩⟩
  · exact ⟨IdError.valueError, rfl⟩
  · exact ⟨IdError.valueError, rfl⟩
  · rw [hsp] at hl
    simp at hl
  · exact ⟨IdError.valueError, rfl⟩

theorem id_to_fips_malformed_witness :
    ∃ e, id_to_fips "AL".data = Except.error e :=
  id_to_fips_malformed "AL".data (by decide)

theorem foldl_min_mem (l : List ℚ) : ∀ a : ℚ, l.foldl min a ∈ a :: l := by
  induction l with
  | nil => intro a; simp
  | cons b t ih =>
    intro a
    simp only [List.foldl_cons]
    rcases List.mem_cons.1 (ih (min a b)) with h1 | h1
    · rcases min_choice a b with h2 | h2 <;> rw [h1, h2] <;> simp
    · simp [h1]

theorem foldl_min_le (l : List ℚ) : ∀ a x : ℚ, x ∈ a :: l → l.foldl min a ≤ x := by
  induction l with
  | nil =>
    intro a x hx
    simp only [List.mem_cons, List.not_mem_nil, or_false] at hx
    subst hx
    simp
  | cons b t ih =>
    intro a x hx
    simp only [List.foldl_cons]
    have hself : t.foldl min (min a b) ≤ min a b :=
      ih (min a b) (min a b) (List.mem_cons_self _ _)
    rcases List.mem_cons.1 hx with rfl | hx1
    · exact le_trans hself (min_le_left _ _)
    · rcases List.mem_cons.1 hx1 with rfl | hx2
      · exact le_trans hself (min_le_right _ _)
      · exact ih (min a b) x (List.mem_cons_of_mem _ hx2)

theorem foldl_max_mem (l : List ℚ) : ∀ a : ℚ, l.foldl max a ∈ a :: l := by
  induction l with
  | nil => intro a; simp
  | cons b t ih =>
    intro a
    simp only [List.foldl_cons]
    rcases List.mem_cons.1 (ih (max a b)) with h1 | h1
    · rcases max_choice a b with h2 | h2 <;> rw [h1, h2] <;> simp
    · simp [h1]

theorem le_foldl_max (l : List ℚ) : ∀ a x : ℚ, x ∈ a :: l → x ≤ l.foldl max a := by
  induction l with
  | nil =>
    intro a x hx
    simp only [List.mem_cons, List.not_mem_nil, or_false] at hx
    subst hx
    simp
  | cons b t ih =>
    intro a x hx
    simp only [List.foldl_cons]
    have hself : max a b ≤ t.foldl max (max a b) :=
      ih (max a b) (max a b) (List.mem_cons_self _ _)
    rcases List.mem_cons.1 hx with rfl | hx1
    · exact le_trans (le_max_left _ _) hself
    · rcases List.mem_cons.1 hx1 with rfl | hx2
      · exact le_trans (le_max_right _ _) hself
      · exact ih (max a b) x (List.mem_cons_of_mem _ hx2)

theorem mem_filterMap_of_get? {xs : List (Option ℚ)} {i : ℕ} {x : ℚ}
    (hx : xs.get? i = some (some x)) : x ∈ xs.filterMap id :=
  List.mem_filterMap.2 ⟨some x, List.get?_mem hx, rfl⟩

/-- C3 counterexample. -/
theorem minmax_constant_half_counterexample :
    minmax_fit_transform [some 1, some 1] = [some 0, some 0] ∧
    minmax_fit_transform [some 1, some 1] ≠ [some (1/2), some (1/2)] := by
  constructor
  · norm_num [minmax_fit_transform, List.filterMap_cons]
  · norm_num [minmax_fit_transform, List.filterMap_cons]

/-- C3 amended. -/
theorem minmax_constant_maps_to_zero (xs : List (Option ℚ))
    (h : ∀ a ∈ xs.filterMap id, ∀ b ∈ xs.filterMap id, a = b)
    (i : ℕ) (x : ℚ) (hx : xs.get? i = some (some x)) :
    (minmax_fit_transform xs).get? i = some (some 0) := by
  have hmem : x ∈ xs.filterMap id := mem_filterMap_of_get? hx
  rcases hfm : xs.filterMap id with _ | ⟨p, ps⟩
  · rw [hfm] at hmem; cases hmem
  · rw [hfm] at hmem h
    have hplo : ps.foldl min p = p := h _ (foldl_min_mem ps p) p (List.mem_cons_self _ _)
    have hxp : x = p := h x hmem p (List.mem_cons_self _ _)
    unfold minmax_fit_transform
    rw [hfm]
    dsimp only
    rw [List.get?_map, hx, hxp, hplo]
    simp only [Option.map_some', Option.some.injEq]
    ring

theorem minmax_constant_maps_to_zero_witness :
    (minmax_fit_transform [some 5, some 5, none]).get? 1 = some (some 0) :=
  minmax_constant_maps_to_zero [some 5, some 5, none] (by decide) 1 5 rfl

/-- C4. -/
theorem minmax_bounds_attained (xs : List (Option ℚ)) :
    (∀ (i : ℕ) (x : ℚ), xs.get? i = some (some x) →
      ∃ y, (minmax_fit_transform xs).get? i = some (some y) ∧ 0 ≤ y ∧ y ≤ 1)
    ∧ ((∃ a ∈ xs.filterMap id, ∃ b ∈ xs.filterMap id, a ≠ b) →
      (∃ i, (minmax_fit_transform xs).get? i = some (some 0)) ∧
      (∃ j, (minmax_fit_transform xs).get? j = some (some 1))) := by
  constructor
  · intro i x hx
    have hmem := mem_filterMap_of_get? hx
    rcases hfm : xs.filterMap id with _ | ⟨p, ps⟩
    · rw [hfm] at hmem; cases hmem
    · rw [hfm] at hmem
      have hlo : ps.foldl min p ≤ x := foldl_min_le ps p x hmem
      have hhi : x ≤ ps.foldl max p := le_foldl_max ps p x hmem
      unfold minmax_fit_transform
      rw [hfm]
      dsimp only
      rw [List.get?_map, hx]
      simp only [Option.map_some']
      refine ⟨_, rfl, ?_, ?_⟩
      · by_cases h0 : ps.foldl max p - ps.foldl min p = 0
        · rw [if_pos h0]
          linarith
        · rw [if_neg h0]
          have hpos : 0 < ps.foldl max p - ps.foldl min p :=
            lt_of_le_of_ne (by linarith) (Ne.symm h0)
          have heq : x * (1 / (ps.foldl max p - ps.foldl min p)) +
              (0 - ps.foldl min p * (1 / (ps.foldl max p - ps.foldl min p))) =
              (x - ps.foldl min p) / (ps.foldl max p - ps.foldl min p) := by
            ring
          rw [heq]
          exact div_nonneg (by linarith) (le_of_lt hpos)
      · by_cases h0 : ps.foldl max p - ps.foldl min p = 0
        · rw [if_pos h0]
          linarith
        · rw [if_neg h0]
          have hpos : 0 < ps.foldl max p - ps.foldl min p :=
            lt_of_le_of_ne (by linarith) (Ne.symm h0)
          have heq : x * (1 / (ps.foldl max p - ps.foldl min p)) +
              (0 - ps.foldl min p * (1 / (ps.foldl max p - ps.foldl min p))) =
              (x - ps.foldl min p) / (ps.foldl max p - ps.foldl min p) := by
            ring
          rw [heq, div_le_one hpos]
          linarith
  · rintro ⟨a, ha, b, hb, hab⟩
    rcases hfm : xs.filterMap id with _ | ⟨p, ps⟩
    · rw [hfm] at ha; cases ha
    · rw [hfm] at ha hb
      have h0 : ps.foldl max p - ps.foldl min p ≠ 0 := by
        intro h0
        have h1 := foldl_min_le ps p a ha
        have h2 := le_foldl_max ps p a ha
        have h3 := foldl_min_le ps p b hb
        have h4 := le_foldl_max ps p b hb
        exact hab (by linarith)
      have hlomem : ps.foldl min p ∈ xs.filterMap id := by
        rw [hfm]; exact foldl_min_mem ps p
      have himem : ps.foldl max p ∈ xs.filterMap id := by
        rw [hfm]; exact foldl_max_mem ps p
      obtain ⟨olo, holo_mem, holo⟩ := List.mem_filterMap.1 hlomem
      obtain ⟨ohi, hohi_mem, hohi⟩ := List.mem_filterMap.1 himem
      simp only [id] at holo hohi
      subst holo
      subst hohi
      obtain ⟨ilo, hilo⟩ := List.mem_iff_get?.1 holo_mem
      obtain ⟨ihi, hihi⟩ := List.mem_iff_get?.1 hohi_mem
      constructor
      · refine ⟨ilo, ?_⟩
        unfold minmax_fit_transform
        rw [hfm]
        dsimp only
        rw [List.get?_map, hilo]
        simp only [Option.map_some', Option.some.injEq]
        ring
      · refine ⟨ihi, ?_⟩
        unfold minmax_fit_transform
        rw [hfm]
        dsimp only
        rw [List.get?_map, hihi]
        simp only [Option.map_some', Option.some.injEq]
        rw [if_neg h0]
        field_simp
        ring

theorem minmax_bounds_attained_witness :
    ∃ y, (minmax_fit_transform [some 0, some 2]).get? 0 = some (some y) ∧ 0 ≤ y ∧ y ≤ 1 :=
  (minmax_bounds_attained [some 0, some 2]).1 0 0 rfl

theorem countP_lt_add_countP_eq_le_length (v : ℚ) (l : List ℚ) :
    l.countP (fun w => w < v) + l.countP (fun w => w = v) ≤ l.length := by
  induction l with
  | nil => simp
  | cons a t ih =>
    simp only [List.countP_cons, List.length_cons]
    rcases lt_trichotomy a v with h | h | h
    · simp only [decide_eq_true_eq]
      rw [if_pos h, if_neg (ne_of_lt h)]
      omega
    · simp only [decide_eq_true_eq]
      rw [if_neg (by rw [h]; exact lt_irrefl v), if_pos h]
      omega
    · simp only [decide_eq_true_eq]
      rw [if_neg (by exact not_lt_of_gt h), if_neg (ne_of_gt h)]
      omega

theorem countP_lt_add_countP_eq_of_le (v : ℚ) (l : List ℚ)
    (h : ∀ w ∈ l, w ≤ v) :
    l.countP (fun w => w < v) + l.countP (fun w => w = v) = l.length := by
  induction l with
  | nil => simp
  | cons a t ih =>
    have ha : a ≤ v := h a (List.mem_cons_self _ _)
    have ih1 := ih (fun w hw => h w (List.mem_cons_of_mem _ hw))
    simp only [List.countP_cons, List.length_cons, decide_eq_true_eq]
    rcases lt_or_eq_of_le ha with hlt | heq
    · rw [if_pos hlt, if_neg (ne_of_lt hlt)]
      omega
    · rw [if_neg (by rw [heq]; exact lt_irrefl v), if_pos heq]
      omega

theorem rankOf_pos_le_one (present : List ℚ) (v : ℚ) (hv : v ∈ present) :
    0 < rankOf present v ∧ rankOf present v ≤ 1 := by
  have hce : 1 ≤ present.countP (fun w => w = v) := by
    have h1 : 0 < present.countP (fun w => w = v) :=
      List.countP_pos_iff.2 ⟨v, hv, by simp⟩
    omega
  have hsum := countP_lt_add_countP_eq_le_length v present
  have hn : 0 < present.length := List.length_pos.2 (List.ne_nil_of_mem hv)
  have hnq : (0 : ℚ) < (present.length : ℚ) := by exact_mod_cast hn
  have hceq : (1 : ℚ) ≤ (present.countP (fun w => w = v) : ℚ) := by exact_mod_cast hce
  have hsumq : (present.countP (fun w => w < v) : ℚ) +
      (present.countP (fun w => w = v) : ℚ) ≤ (present.length : ℚ) := by
    exact_mod_cast hsum
  have hclq : (0 : ℚ) ≤ (present.countP (fun w => w < v) : ℚ) := by positivity
  unfold rankOf
  constructor
  · apply div_pos
    · linarith
    · exact hnq
  · rw [div_le_one hnq]
    linarith

theorem rankOf_unique_max (present : List ℚ) (v : ℚ) (hv : v ∈ present)
    (hmax : ∀ w ∈ present, w ≤ v)
    (huniq : present.countP (fun w => w = v) = 1) :
    rankOf present v = 1 := by
  have hsum := countP_lt_add_countP_eq_of_le v present hmax
  have hn : 0 < present.length := List.length_pos.2 (List.ne_nil_of_mem hv)
  have hnq : (0 : ℚ) < (present.length : ℚ) := by exact_mod_cast hn
  unfold rankOf
  rw [huniq] at hsum ⊢
  have hclq : (present.countP (fun w => w < v) : ℚ) = (present.length : ℚ) - 1 := by
    have : present.countP (fun w => w < v) + 1 = present.length := hsum
    have h2 : (present.countP (fun w => w < v) : ℚ) + 1 = (present.length : ℚ) := by
      exact_mod_cast this
    linarith
  rw [hclq]
  push_cast
  field_simp

/-- C5 counterexample. -/
theorem rank_pct_tied_max_counterexample :
    rank_pct [some 10, some 20, some 20] = [some (1/3), some (5/6), some (5/6)] ∧
    (rank_pct [some 10, some 20, some 20]).get? 1 ≠ some (some 1) := by
  constructor
  · norm_num [rank_pct, rankOf, List.countP, List.countP.go, List.filterMap_cons]
  · norm_num [rank_pct, rankOf, List.countP, List.countP.go, List.filterMap_cons]

/-- C5 amended. -/
theorem rank_pct_fractional_ranking :
    (∀ (xs : List (Option ℚ)) (i : ℕ) (v : ℚ), xs.get? i = some (some v) →
      ∃ r, (rank_pct xs).get? i = some (some r) ∧ 0 < r ∧ r ≤ 1)
    ∧ (∀ (xs : List (Option ℚ)) (i : ℕ) (v : ℚ), xs.get? i = some (some v) →
      (∀ w ∈ xs.filterMap id, w ≤ v) →
      (xs.filterMap id).countP (fun w => w = v) = 1 →
      (rank_pct xs).get? i = some (some 1))
    ∧ rank_pct [some 10, some 10, some 20] = [some (1/2), some (1/2), some 1]
    ∧ (∀ (xs : List (Option ℚ)) (i : ℕ), xs.get? i = some none →
      (rank_pct xs).get? i = some none)
    ∧ (∀ (xs ys : List (Option ℚ)),
      rank_pct (xs ++ none :: ys) =
        (rank_pct (xs ++ ys)).take xs.length ++
          none :: (rank_pct (xs ++ ys)).drop xs.length) := by
  refine ⟨?_, ?_, ?_, ?_, ?_⟩
  · intro xs i v hv
    have hmem := mem_filterMap_of_get? hv
    unfold rank_pct
    rw [List.get?_map, hv]
    simp only [Option.map_some']
    exact ⟨rankOf (xs.filterMap id) v, rfl,
      (rankOf_pos_le_one (xs.filterMap id) v hmem).1,
      (rankOf_pos_le_one (xs.filterMap id) v hmem).2⟩
  · intro xs i v hv hmax huniq
    have hmem := mem_filterMap_of_get? hv
    unfold rank_pct
    rw [List.get?_map, hv]
    simp only [Option.map_some']
    rw [rankOf_unique_max (xs.filterMap id) v hmem hmax huniq]
  · norm_num [rank_pct, rankOf, List.countP, List.countP.go, List.filterMap_cons]
  · intro xs i hv
    unfold rank_pct
    rw [List.get?_map, hv]
    rfl
  · intro xs ys
    have hfm : (xs ++ none :: ys).filterMap id = (xs ++ ys).filterMap id := by
      simp [List.filterMap_append]
    unfold rank_pct
    rw [hfm]
    rw [List.map_append, List.map_cons, List.map_append]
    rw [List.take_left' (by rw [List.length_map]), List.drop_left' (by rw [List.length_map])]
    rfl

theorem rank_pct_fractional_ranking_witness :
    (rank_pct [some 3, some 7]).get? 1 = some (some 1) :=
  rank_pct_fractional_ranking.2.1 [some 3, some 7] 1 7 rfl (by decide) (by decide)
